import Mathlib

/-!
Verification of the HiRA voice-relay orchestration layer and frontend page
logic, shallowly embedded in Lean 4.

Sources embedded:
* `frontend/src/pages/VoicePage.jsx` — the relay session event handlers
  (speech start/stop, interruption, audio deltas, error handling) and the
  derived status function.
* `frontend/src/pages/BotPage.jsx` — `formatMeetingAsText` / `parseMeetingText`.
* `hira-demo-local/src/pages/ChatPage.jsx` — `handleSend`.
* `hira-demo-local/src/pages/DocumentsPage.jsx` — `handleFileSelect`.
* The relay server (`relay_with_hybrid_wakeword.py`: transcript ring buffer,
  wake-word gate, retrieval bridge post-processing, teardown) is not present
  in the source tree; those parts are modelled from the specification and the
  repository's README, and are marked `Modelled from the spec:` below.

JavaScript strings are embedded as `List Char` (`JStr`) so that the string
operations the pages use (`trim`, `split('\n')`, `startsWith`, `substring`)
have fully transparent, inductively provable definitions.

The file is organised as definitions first, then theorems.
-/

namespace Hira

/-- JavaScript strings, embedded as lists of characters. -/
abbrev JStr := List Char

/-- JavaScript whitespace (the fragment relevant here: space, tab, CR, LF). -/
def jsWS (c : Char) : Bool :=
  c = ' ' ∨ c = '\t' ∨ c = '\r' ∨ c = '\n'

/-- Remove trailing whitespace, as the tail half of JavaScript `trim()`. -/
def dropTrail (s : JStr) : JStr :=
  (s.reverse.dropWhile jsWS).reverse

/-- JavaScript `String.prototype.trim()`. -/
def jtrim (s : JStr) : JStr :=
  dropTrail (s.dropWhile jsWS)

/-- JavaScript `startsWith('-')`. -/
def startsDash : JStr → Bool
  | '-' :: _ => true
  | _ => false

/-- JavaScript `startsWith('##')`. -/
def startsHH : JStr → Bool
  | '#' :: '#' :: _ => true
  | _ => false

/-- JavaScript `split('\n')`: splits on every newline, keeping empty pieces. -/
def splitNL : JStr → List JStr
  | [] => [[]]
  | c :: cs =>
    if c = '\n' then [] :: splitNL cs
    else
      match splitNL cs with
      | r :: rs => (c :: r) :: rs
      | [] => [[c]]

/-- Lines joined with a trailing `'\n'` each, as the page's format emits them. -/
def joinLines (ls : List JStr) : JStr :=
  ls.flatMap (fun l => l ++ ['\n'])

/-- JavaScript `Array.prototype.join('\n')`. -/
def joinNL : List JStr → JStr
  | [] => []
  | [x] => x
  | x :: y :: rest => x ++ '\n' :: joinNL (y :: rest)

/-- A "clean" string: non-empty, single-line, no leading or trailing
whitespace. These are exactly the strings the text edit format on
`BotPage.jsx` preserves. -/
def Clean (s : JStr) : Prop :=
  s ≠ [] ∧ (∀ c ∈ s, c ≠ '\n') ∧ jsWS (s.headD 'x') = false ∧
    jsWS (s.getLastD 'x') = false

instance (s : JStr) : Decidable (Clean s) := by
  unfold Clean; infer_instance

end Hira

namespace Hira.Transcript

/-!
## Transcript Buffer

Modelled from the spec: the relay server `relay_with_hybrid_wakeword.py` is
not part of the provided source tree; its transcript ring buffer is modelled
from §3/§4.1 of the specification and the repository README ("Buffers all
transcript in memory (last 50 items)"): a bounded FIFO of capacity 50 whose
`append` evicts the single oldest entry when at capacity.
-/

/-- Speaker of a transcript entry. -/
inductive Speaker where
  | user
  | assistant
  deriving DecidableEq, Repr

/-- Whether a speaker tag is the assistant. -/
def Speaker.isAssistant : Speaker → Bool
  | .assistant => true
  | .user => false

/-- A completed turn recorded in the transcript buffer. -/
structure TranscriptEntry where
  speaker : Speaker
  text : String
  timestamp : Nat
  deriving DecidableEq, Repr

/-- The buffer capacity implemented by the relay ("last 50 items"). -/
def capacity : Nat := 50

/-- Modelled from the spec: `append(entry)` adds an entry and evicts the
single oldest one when the buffer is at capacity (§4.1). -/
def append (buf : List TranscriptEntry) (e : TranscriptEntry) :
    List TranscriptEntry :=
  if buf.length < capacity then buf ++ [e] else buf.tail ++ [e]

/-- The buffer after a whole sequence of appends, starting empty. -/
def buildBuf (es : List TranscriptEntry) : List TranscriptEntry :=
  es.foldl append []

/-- Modelled from the spec: `recent(k)` returns the last `k` entries in
insertion order (§4.1). -/
def recent (buf : List TranscriptEntry) (k : Nat) : List TranscriptEntry :=
  buf.drop (buf.length - k)

/-- Number of assistant entries currently in a buffer. -/
def countAssistant (buf : List TranscriptEntry) : Nat :=
  (buf.filter (fun e => e.speaker.isAssistant)).length

end Hira.Transcript

namespace Hira.WakeWord

/-!
## Wake-Word Gate

Modelled from the spec: the wake-word gate lives in the relay server
(`relay_with_hybrid_wakeword.py`), which is not part of the provided source
tree. The definitions below follow §4.2 of the specification and the README
("Uses regex to detect 'hey hira' / 'hi hira' / 'hello hira'
(case-insensitive)", "Extracts question from text after wake word").
-/

/-- ASCII lower-casing of one character. -/
def lcChar (c : Char) : Char :=
  if 'A' ≤ c ∧ c ≤ 'Z' then Char.ofNat (c.toNat + 32) else c

/-- Case folding of a JavaScript string. -/
def toLower (s : JStr) : JStr := s.map lcChar

/-- The fixed set of address phrases recognized by the gate. -/
def wakePhrases : List JStr :=
  ["hey hira".toList, "hi hira".toList, "hello hira".toList]

/-- Leading separators stripped between the wake phrase and the request. -/
def sepChar (c : Char) : Bool :=
  jsWS c ∨ c = ',' ∨ c = '.' ∨ c = '!' ∨ c = '?'

/-- Modelled from the spec: `match(text)` of §4.2 — case-insensitive match
of an address phrase anchored at the start of the utterance; on a match the
remainder is stripped of leading separators and trimmed, and an empty
remainder (wake phrase only) yields no match. -/
def wakeMatch (text : JStr) : Option JStr :=
  let lower := toLower text
  match wakePhrases.find? (fun p => p.isPrefixOf lower) with
  | some p =>
    let rest := jtrim ((text.drop p.length).dropWhile sepChar)
    if rest = [] then none else some rest
  | none => none

end Hira.WakeWord

namespace Hira.Relay

/-!
## Audio/Event Relay session

The event-handler wiring of `connectToOpenAI` in
`frontend/src/pages/VoicePage.jsx`, embedded as a step function over a
closed set of events. The audio output player (`wavtools`, imported by the
page but not part of the provided source tree) is modelled from the spec.
-/

/-- Modelled from the spec: the audio stream player (`WavStreamPlayer` from
`../lib/wavtools`, not under the provided sources). Per §4.4, `interrupt`
stops playback of the current track at the current offset and reports it,
and frames belonging to a cancelled (interrupted) reply are never forwarded
to the client after the cancellation point — `add16BitPCM` discards frames
of cancelled tracks. `played` records the frames actually forwarded to the
client. -/
structure PlayerState where
  current : Option Nat := none
  cancelledIds : List Nat := []
  played : List (Nat × Nat) := []
  deriving DecidableEq, Repr

/-- `wavStreamPlayer.add16BitPCM(delta.audio, item.id)`. -/
def PlayerState.add (p : PlayerState) (tid : Nat) (frame : Nat) : PlayerState :=
  if tid ∈ p.cancelledIds then p
  else {p with current := some tid, played := p.played ++ [(tid, frame)]}

/-- Current playback offset within a track: frames forwarded so far. -/
def PlayerState.offsetOf (p : PlayerState) (tid : Nat) : Nat :=
  (p.played.filter (fun f => f.1 = tid)).length

/-- `wavStreamPlayer.interrupt()`: stops the current track and reports its
id and playback offset. -/
def PlayerState.interrupt (p : PlayerState) : PlayerState × Option (Nat × Nat) :=
  match p.current with
  | some tid =>
    ({p with cancelledIds := tid :: p.cancelledIds, current := none},
      some (tid, p.offsetOf tid))
  | none => (p, none)

/-- The closed set of upstream/audio events the page's handlers consume.
The 200 ms debounce timer set by the `speech_started` handler is made
explicit as the `debounceFire` event. -/
inductive VEvent where
  | speechStarted
  | debounceFire
  | speechStopped
  | interrupted
  | audioDelta (tid frame : Nat)
  | itemCompletedAudio
  | errorEvt
  | disconnectedEvt
  deriving DecidableEq, Repr

/-- Connection status values used by `connectToOpenAI`. -/
inductive ConnStatus where
  | connecting
  | connected
  | disconnected
  | error
  deriving DecidableEq, Repr

/-- The React state of `VoicePage` relevant to the relay session, plus the
player and the record of cancellations signalled upstream
(`client.cancelResponse(trackId, offset)`). -/
structure VState where
  connStatus : ConnStatus := .connected
  errorMsg : Option String := none
  isListening : Bool := false
  isThinking : Bool := false
  isSpeaking : Bool := false
  speechTimeout : Bool := false
  player : PlayerState := {}
  cancelSignals : List (Nat × Nat) := []
  deriving DecidableEq, Repr

/-- One step of the event-handler wiring of `connectToOpenAI`
(VoicePage.jsx): each branch mirrors the corresponding `client.on` /
timer handler. -/
def vstep (s : VState) : VEvent → VState
  | .speechStarted => {s with speechTimeout := true}
  | .debounceFire =>
    if s.speechTimeout then {s with isListening := true, speechTimeout := false}
    else s
  | .speechStopped =>
    {s with speechTimeout := false, isListening := false, isThinking := true}
  | .interrupted =>
    match s.player.interrupt with
    | (p, some (tid, off)) =>
      {s with
        player := p
        cancelSignals := s.cancelSignals ++ [(tid, off)]
        isSpeaking := false
        isThinking := false}
    | (p, none) =>
      {s with player := p, isSpeaking := false, isThinking := false}
  | .audioDelta tid frame =>
    {s with player := s.player.add tid frame, isSpeaking := true}
  | .itemCompletedAudio => {s with isSpeaking := false, isThinking := false}
  | .errorEvt => {s with errorMsg := some "Connection error", connStatus := .error}
  | .disconnectedEvt => {s with connStatus := .disconnected}

/-- Whether an event is a reply audio delta. -/
def VEvent.isAudio : VEvent → Bool
  | .audioDelta _ _ => true
  | _ => false

/-- The coarse session status reported to the user. -/
inductive Status where
  | connecting
  | ready
  | listening
  | thinking
  | speaking
  | error
  deriving DecidableEq, Repr

/-- `getStatus()` from VoicePage.jsx. -/
def getStatus (s : VState) : Status :=
  if s.errorMsg.isSome ∨ s.connStatus = .error then .error
  else if s.isSpeaking then .speaking
  else if s.isThinking then .thinking
  else if s.isListening then .listening
  else if s.connStatus = .connected then .ready
  else .connecting

/-- Process a sequence of events. -/
def run (s : VState) (es : List VEvent) : VState := es.foldl vstep s

/-- Frames of a given track forwarded to the client so far. -/
def playedOf (s : VState) (tid : Nat) : List (Nat × Nat) :=
  s.player.played.filter (fun f => f.1 = tid)

/-- A relay session: the event state plus the two connection handles
(upstream realtime API and client audio). -/
structure RelaySession where
  v : VState
  upstreamOpen : Bool := true
  clientOpen : Bool := true
  deriving DecidableEq, Repr

/-- Modelled from the spec: session-level step. On an unrecoverable error
(or a disconnect) the session is torn down and both connection handles are
released (§4.4 "any state → error", §7 ConnectionFailure); the relay server
owning the handles is not under the provided sources, while the `error`
state transition itself mirrors the VoicePage.jsx error handler. All other
events only update the event state. -/
def sessionStep (sess : RelaySession) (e : VEvent) : RelaySession :=
  match e with
  | .errorEvt =>
    {v := vstep sess.v .errorEvt, upstreamOpen := false, clientOpen := false}
  | .disconnectedEvt =>
    { v := vstep sess.v .disconnectedEvt
      upstreamOpen := false
      clientOpen := false }
  | e => {sess with v := vstep sess.v e}

/-- Process a sequence of events at the session level. -/
def runSession (sess : RelaySession) (es : List VEvent) : RelaySession :=
  es.foldl sessionStep sess

/-- A concrete mid-reply session state: two frames of track 7 forwarded,
reply still in flight. -/
def speakingExample : VState :=
  { isSpeaking := true
    player := { current := some 7, played := [(7, 0), (7, 1)] } }

end Hira.Relay

namespace Hira.Bridge

/-!
## Knowledge Retrieval Bridge

The `search_knowledge_base` function-call handler of `connectToOpenAI`
(VoicePage.jsx), plus the backend post-processing and the relay's fallback
turn handling, which are not under the provided sources and are modelled
from the spec.
-/

/-- A retrieved passage with its source citation. -/
structure Passage where
  text : JStr
  source : String
  deriving DecidableEq, Repr

/-- The request body the handler POSTs to `/rag/search`:
`{ query: args.query, n_results: 3 }` (VoicePage.jsx). -/
structure RagRequest where
  query : String
  n_results : Nat
  deriving DecidableEq, Repr

/-- Builds the `/rag/search` request exactly as the handler does. -/
def buildRagRequest (query : String) : RagRequest :=
  {query := query, n_results := 3}

/-- The tool-call output sent back with `sendFunctionCallOutput`: passages
on success, or an explicit error indicator with no passages. -/
structure RetrievalResult where
  passages : List Passage
  error : Option String
  deriving DecidableEq, Repr

/-- The function-call handler outcome (VoicePage.jsx): the backend's result
on success; on a failed or non-ok fetch, the catch branch sends
`{ error: 'Failed to search knowledge base' }` — an explicit error
indicator and no passages. -/
def searchOutcome (backend : Option (List Passage)) : RetrievalResult :=
  match backend with
  | some ps => {passages := ps, error := none}
  | none => {passages := [], error := some "Failed to search knowledge base"}

/-- Modelled from the spec: the passage-text length budget suited for speech
synthesis (§4.3; the README notes results are "truncated for voice"). -/
def truncBudget : Nat := 200

/-- Modelled from the spec: backend retrieval post-processing (not under the
provided sources; §4.3 and README "Returns top 3 results (truncated for
voice)") — keeps the requested top `n_results` passages, truncates each
passage text to the length budget, and preserves source citations. -/
def bridgeRetrieve (req : RagRequest) (raw : List Passage) : RetrievalResult :=
  {passages := (raw.take req.n_results).map
      (fun p => {p with text := p.text.take truncBudget}),
    error := none}

/-- The designated spoken fallback for a failed retrieval (§4.3). -/
def fallbackText : String := "I don't have information about that"

/-- Modelled from the spec: the relay server's turn completion after a
retrieval tool call (§4.3, §7 RetrievalFailure) — an error result is
converted into the designated fallback reply rather than a hard failure,
and exactly one assistant entry is appended to the transcript buffer for
the turn. `speak` abstracts the upstream model's reply synthesis from
successful passages. -/
def processRetrievalReply (speak : List Passage → String)
    (buf : List Transcript.TranscriptEntry) (res : RetrievalResult)
    (ts : Nat) : String × List Transcript.TranscriptEntry :=
  let reply :=
    match res.error with
    | some _ => fallbackText
    | none => speak res.passages
  (reply, Transcript.append buf ⟨.assistant, reply, ts⟩)

end Hira.Bridge

namespace Hira.Chat

/-!
## Chat page send flow

`handleSend` from `hira-demo-local/src/pages/ChatPage.jsx`, embedded with
the backend call's outcome as an explicit parameter (`some response` for a
successful `chatAPI.sendMessage`, `none` for a rejected one).
-/

/-- A chat message as stored in a conversation. -/
structure ChatMsg where
  role : String
  content : JStr
  ts : Nat
  sources : Option (List String) := none
  error : Bool := false
  deriving DecidableEq, Repr

/-- A conversation in the sidebar list. -/
structure Conversation where
  id : String
  title : JStr
  ts : Nat
  messages : List ChatMsg
  deriving DecidableEq, Repr

/-- The page state `handleSend` reads and writes. -/
structure ChatState where
  conversations : List Conversation
  activeConversationId : String
  input : JStr
  loading : Bool
  deriving DecidableEq, Repr

/-- A successful `chatAPI.sendMessage` response. -/
structure ApiResponse where
  message : JStr
  sources : List String
  timestamp : Nat
  deriving DecidableEq, Repr

/-- The title given to a fresh conversation. -/
def newConversationTitle : JStr := "New Conversation".toList

/-- The assistant error bubble content of the catch branch. -/
def errorReplyText : JStr :=
  "I'm sorry, I encountered an error processing your message. Please make sure the backend server is running and try again.".toList

/-- `handleSend` (ChatPage.jsx). `now` stands for `new Date()`; `api` is
the outcome of `chatAPI.sendMessage`. The guard, the user-message append,
the success append with the title update, the catch-branch error append and
the finally-branch loading reset follow the source line by line. -/
def handleSend (now : Nat) (api : Option ApiResponse) (s : ChatState) :
    ChatState :=
  if jtrim s.input = [] ∨ s.loading then s
  else
    let userMessage := jtrim s.input
    let newUserMessage : ChatMsg := {role := "user", content := userMessage, ts := now}
    let conv1 := s.conversations.map (fun conv =>
      if conv.id = s.activeConversationId then
        {conv with messages := conv.messages ++ [newUserMessage], ts := now}
      else conv)
    match api with
    | some resp =>
      let assistantMessage : ChatMsg :=
        { role := "assistant"
          content := resp.message
          sources := some resp.sources
          ts := resp.timestamp }
      let conv2 := conv1.map (fun conv =>
        if conv.id = s.activeConversationId then
          {conv with
            messages := conv.messages ++ [assistantMessage]
            title := if conv.title = newConversationTitle
              then userMessage.take 30 ++ "...".toList else conv.title}
        else conv)
      { conversations := conv2
        activeConversationId := s.activeConversationId
        input := []
        loading := false }
    | none =>
      let errorMessage : ChatMsg :=
        { role := "assistant"
          content := errorReplyText
          ts := now
          error := true }
      let conv2 := conv1.map (fun conv =>
        if conv.id = s.activeConversationId then
          {conv with messages := conv.messages ++ [errorMessage]}
        else conv)
      { conversations := conv2
        activeConversationId := s.activeConversationId
        input := []
        loading := false }

end Hira.Chat

namespace Hira.Docs

/-!
## Documents page upload validation

`handleFileSelect` from `hira-demo-local/src/pages/DocumentsPage.jsx`,
embedded with the upload API as an explicit parameter.
-/

/-- The selected file: name and size in bytes. -/
structure JFile where
  name : JStr
  size : Nat
  deriving DecidableEq, Repr

/-- Upload status kind. -/
inductive StatusType where
  | success
  | error
  deriving DecidableEq, Repr

/-- The `uploadStatus` object set by the handler. -/
structure UploadStatus where
  type : StatusType
  message : String
  deriving DecidableEq, Repr

/-- The observable outcome of one `handleFileSelect` invocation:
whether `documentsAPI.upload` was invoked, the upload status set, and the
resulting documents list. -/
structure SelectResult where
  uploadCalled : Bool
  uploadStatus : Option UploadStatus
  documents : List String
  deriving DecidableEq, Repr

/-- `const allowedTypes = ['.pdf', '.docx', '.txt', '.md']`. -/
def allowedTypes : List JStr :=
  [".pdf".toList, ".docx".toList, ".txt".toList, ".md".toList]

/-- JavaScript `lastIndexOf('.')`, as an option instead of `-1`. -/
def lastDotIdx : JStr → Option Nat
  | [] => none
  | c :: cs =>
    match lastDotIdx cs with
    | some i => some (i + 1)
    | none => if c = '.' then some 0 else none

/-- `file.name.substring(file.name.lastIndexOf('.')).toLowerCase()`.
JavaScript `substring(-1)` clamps to 0, so a dotless name yields the whole
lower-cased name. -/
def jsFileExt (name : JStr) : JStr :=
  match lastDotIdx name with
  | some i => (name.drop i).map WakeWord.lcChar
  | none => name.map WakeWord.lcChar

/-- `handleFileSelect` (DocumentsPage.jsx): no file selected is a no-op;
a disallowed extension or an over-limit size sets an error status and
returns before any upload; otherwise the upload API runs and the documents
list is reloaded (its outcome abstracted by `uploadApi`). -/
def handleFileSelect (docs : List String) (file : Option JFile)
    (uploadApi : JFile → Except String (List String)) : SelectResult :=
  match file with
  | none => {uploadCalled := false, uploadStatus := none, documents := docs}
  | some f =>
    let fileExt := jsFileExt f.name
    if fileExt ∉ allowedTypes then
      { uploadCalled := false
        uploadStatus := some ⟨.error,
          "File type not supported. Allowed: .pdf, .docx, .txt, .md"⟩
        documents := docs }
    else if f.size > 50 * 1024 * 1024 then
      { uploadCalled := false
        uploadStatus := some ⟨.error, "File size exceeds 50MB limit"⟩
        documents := docs }
    else
      match uploadApi f with
      | .ok newDocs =>
        { uploadCalled := true
          uploadStatus := some ⟨.success, "Successfully uploaded"⟩
          documents := newDocs }
      | .error e =>
        { uploadCalled := true
          uploadStatus := some ⟨.error, e⟩
          documents := docs }

end Hira.Docs

namespace Hira.Meeting

/-!
## Meeting text edit format

`formatMeetingAsText` and `parseMeetingText` from
`frontend/src/pages/BotPage.jsx`, embedded over `JStr`. The JavaScript
object `structured_notes` is embedded as an association list in key
insertion order, which JavaScript objects preserve for string keys.
-/

/-- The meeting fields the text edit format covers. `key_stakeholders`
holds the participants (the page reads `meeting.key_stakeholders ||
meeting.participants`; the parse result always uses `key_stakeholders`). -/
structure PMeeting where
  summary : JStr
  key_stakeholders : List JStr
  structured_notes : List (JStr × List JStr)
  next_steps : List JStr
  deriving DecidableEq, Repr

/-- Section header `SUMMARY:`. -/
def hdrSummary : JStr := "SUMMARY:".toList

/-- Section header `PARTICIPANTS:`. -/
def hdrParticipants : JStr := "PARTICIPANTS:".toList

/-- Section header `MEETING NOTES:`. -/
def hdrNotes : JStr := "MEETING NOTES:".toList

/-- Section header `NEXT STEPS:`. -/
def hdrNextSteps : JStr := "NEXT STEPS:".toList

/-- A bullet line: `` `- ${item}` ``. -/
def dashItem (p : JStr) : JStr := '-' :: ' ' :: p

/-- A topic line: `` `## ${topic}` ``. -/
def hhItem (t : JStr) : JStr := '#' :: '#' :: ' ' :: t

/-- `formatMeetingAsText(meeting)` (BotPage.jsx), section by section. -/
def formatMeetingAsText (m : PMeeting) : JStr :=
  let t1 :=
    if m.summary = [] then []
    else hdrSummary ++ '\n' :: m.summary ++ '\n' :: '\n' :: []
  let t2 :=
    if m.key_stakeholders = [] then []
    else hdrParticipants ++ '\n' :: joinNL (m.key_stakeholders.map dashItem)
      ++ '\n' :: '\n' :: []
  let t3 :=
    if m.structured_notes = [] then []
    else hdrNotes ++ '\n' :: (m.structured_notes.flatMap (fun tn =>
      '\n' :: (hhItem tn.1 ++ '\n' ::
        tn.2.flatMap (fun n => dashItem n ++ ['\n'])))) ++ ['\n']
  let t4 :=
    if m.next_steps = [] then []
    else hdrNextSteps ++ '\n' :: joinNL (m.next_steps.map dashItem) ++ ['\n']
  t1 ++ t2 ++ t3 ++ t4

/-- The accumulator of the parse loop in `parseMeetingText`. -/
structure ParseState where
  currentSection : String
  currentTopic : JStr
  summary : JStr
  participants : List JStr
  structured_notes : List (JStr × List JStr)
  next_steps : List JStr
  deriving DecidableEq, Repr

/-- The parse loop accumulator before the first line. -/
def initState : ParseState := ⟨"", [], [], [], [], []⟩

/-- `structured_notes[currentTopic] = []`: resets an existing key in place,
or appends a fresh key. -/
def setTopic (notes : List (JStr × List JStr)) (t : JStr) :
    List (JStr × List JStr) :=
  if notes.any (fun kv => kv.1 = t) then
    notes.map (fun kv => if kv.1 = t then (kv.1, ([] : List JStr)) else kv)
  else notes ++ [(t, [])]

/-- `structured_notes[currentTopic].push(...)`. -/
def pushNote (notes : List (JStr × List JStr)) (t : JStr) (n : JStr) :
    List (JStr × List JStr) :=
  notes.map (fun kv => if kv.1 = t then (kv.1, kv.2 ++ [n]) else kv)

/-- One iteration of the `for (let line of lines)` loop of
`parseMeetingText` (BotPage.jsx): trim, section-header dispatch, then the
per-section line handling. -/
def parseLine (s : ParseState) (raw : JStr) : ParseState :=
  let line := jtrim raw
  if line = hdrSummary then {s with currentSection := "summary"}
  else if line = hdrParticipants then {s with currentSection := "participants"}
  else if line = hdrNotes then {s with currentSection := "notes"}
  else if line = hdrNextSteps then {s with currentSection := "next_steps"}
  else if s.currentSection = "summary" ∧ line ≠ [] ∧ startsHH line = false ∧
      startsDash line = false then
    {s with summary := if s.summary = [] then line else s.summary ++ ' ' :: line}
  else if s.currentSection = "participants" ∧ startsDash line = true then
    {s with participants := s.participants ++ [jtrim (line.drop 1)]}
  else if s.currentSection = "notes" then
    if startsHH line = true then
      let t := jtrim (line.drop 2)
      {s with currentTopic := t, structured_notes := setTopic s.structured_notes t}
    else if startsDash line = true ∧ s.currentTopic ≠ [] then
      {s with structured_notes :=
        pushNote s.structured_notes s.currentTopic (jtrim (line.drop 1))}
    else s
  else if s.currentSection = "next_steps" ∧ startsDash line = true then
    {s with next_steps := s.next_steps ++ [jtrim (line.drop 1)]}
  else s

/-- `parseMeetingText(text)` (BotPage.jsx). -/
def parseMeetingText (text : JStr) : PMeeting :=
  let st := (splitNL text).foldl parseLine initState
  ⟨st.summary, st.participants, st.structured_notes, st.next_steps⟩

end Hira.Meeting

/-!
# Theorems

Supporting lemmas first, then one theorem per claim (with witnesses and
counterexamples where required).
-/

namespace Hira

/-- `splitNL` never returns the empty list. -/
theorem splitNL_ne_nil (s : JStr) : splitNL s ≠ [] := by
  cases s with
  | nil => simp [splitNL]
  | cons c cs =>
    simp only [splitNL]
    split
    · simp
    · split <;> simp

/-- A string without newlines is a single split piece. -/
theorem splitNL_no_newline (s : JStr) (h : '\n' ∉ s) : splitNL s = [s] := by
  induction s with
  | nil => rfl
  | cons c cs ih =>
    simp only [List.mem_cons, not_or] at h
    simp only [splitNL, if_neg (Ne.symm h.1)]
    rw [ih h.2]

/-- Splitting distributes over a newline that follows a newline-free prefix. -/
theorem splitNL_append (a b : JStr) (h : '\n' ∉ a) :
    splitNL (a ++ '\n' :: b) = a :: splitNL b := by
  induction a with
  | nil => simp [splitNL]
  | cons c cs ih =>
    simp only [List.mem_cons, not_or] at h
    show splitNL (c :: (cs ++ '\n' :: b)) = (c :: cs) :: splitNL b
    simp only [splitNL, if_neg (Ne.symm h.1)]
    rw [ih h.2]

theorem joinLines_append (a b : List JStr) :
    joinLines (a ++ b) = joinLines a ++ joinLines b := by
  simp [joinLines]

/-- Splitting joined newline-free lines recovers the lines (plus the empty
final piece that JavaScript `split` keeps after a trailing newline). -/
theorem splitNL_joinLines (ls : List JStr) (h : ∀ l ∈ ls, '\n' ∉ l) :
    splitNL (joinLines ls) = ls ++ [[]] := by
  induction ls with
  | nil => rfl
  | cons l rest ih =>
    have hl : '\n' ∉ l := h l (by simp)
    have hrest : ∀ x ∈ rest, '\n' ∉ x := fun x hx => h x (by simp [hx])
    have hjoin : joinLines (l :: rest) = l ++ '\n' :: joinLines rest := by
      simp [joinLines]
    rw [hjoin, splitNL_append _ _ hl, ih hrest]
    rfl

theorem Clean.no_newline {s : JStr} (h : Clean s) : '\n' ∉ s := by
  intro hm
  exact (h.2.1 '\n' hm) rfl

theorem dropWhile_jsWS_of_clean {s : JStr} (h : Clean s) :
    s.dropWhile jsWS = s := by
  cases s with
  | nil => rfl
  | cons c cs =>
    have hc : jsWS c = false := h.2.2.1
    simp [List.dropWhile_cons, hc]

theorem dropTrail_of_clean {s : JStr} (h : Clean s) : dropTrail s = s := by
  unfold dropTrail
  rcases List.eq_nil_or_concat s with rfl | ⟨init, last, rfl⟩
  · rfl
  · have hl : jsWS last = false := by
      have := h.2.2.2
      simpa [List.concat_eq_append, List.getLastD_concat] using this
    simp [List.concat_eq_append, List.reverse_append, List.dropWhile_cons, hl]

theorem jtrim_of_clean {s : JStr} (h : Clean s) : jtrim s = s := by
  unfold jtrim
  rw [dropWhile_jsWS_of_clean h, dropTrail_of_clean h]

theorem jtrim_nil : jtrim [] = [] := rfl

/-- Trimming a clean string prefixed by one space gives back the string. -/
theorem jtrim_space_cons {s : JStr} (h : Clean s) : jtrim (' ' :: s) = s := by
  unfold jtrim
  rw [List.dropWhile_cons]
  simp only [jsWS]
  norm_num
  rw [dropWhile_jsWS_of_clean h, dropTrail_of_clean h]

end Hira

namespace Hira.Transcript

theorem append_length_le (buf : List TranscriptEntry) (e : TranscriptEntry)
    (h : buf.length ≤ capacity) : (append buf e).length ≤ capacity := by
  simp only [append, capacity] at *
  split
  · rename_i hlt
    simp only [List.length_append, List.length_cons, List.length_nil]
    omega
  · rename_i hge
    simp only [List.length_append, List.length_cons, List.length_nil,
      List.length_tail]
    omega

/-- The state of the buffer after any sequence of appends is exactly the
last `min n capacity` appended entries, in insertion order. -/
theorem buildBuf_eq_drop (es : List TranscriptEntry) :
    buildBuf es = es.drop (es.length - capacity) := by
  simp only [capacity]
  induction es using List.reverseRecOn with
  | nil => rfl
  | append_singleton init e ih =>
    unfold buildBuf at *
    rw [List.foldl_append, List.foldl_cons, List.foldl_nil, ih]
    simp only [append, capacity, List.length_drop, List.length_append,
      List.length_cons, List.length_nil]
    split
    · rename_i hlt
      have h0 : init.length - 50 = 0 := by omega
      have h1 : init.length + 1 - 50 = 0 := by omega
      rw [h0, h1]
      simp
    · rename_i hge
      rw [List.tail_drop]
      rw [List.drop_append_of_le_length (by omega)]
      have harith : init.length - 50 + 1 = init.length + 1 - 50 := by omega
      rw [harith]

end Hira.Transcript

namespace Hira.Relay

theorem getStatus_ready_iff (s : VState) :
    getStatus s = .ready ↔
      s.errorMsg = none ∧ s.connStatus = .connected ∧ s.isSpeaking = false ∧
        s.isThinking = false ∧ s.isListening = false := by
  obtain ⟨cs, em, il, it, isp, st, p, sig⟩ := s
  cases em <;> cases cs <;> cases il <;> cases it <;> cases isp <;>
    simp [getStatus]

theorem getStatus_speaking_iff (s : VState) :
    getStatus s = .speaking ↔
      s.errorMsg = none ∧ ¬s.connStatus = .error ∧ s.isSpeaking = true := by
  obtain ⟨cs, em, il, it, isp, st, p, sig⟩ := s
  cases em <;> cases cs <;> cases il <;> cases it <;> cases isp <;>
    simp [getStatus]

theorem getStatus_ne_speaking_of (s : VState) (h : s.isSpeaking = false) :
    getStatus s ≠ .speaking := by
  unfold getStatus
  rw [h]
  split_ifs <;> simp_all

theorem getStatus_error_of_isSome (s : VState) (h : s.errorMsg.isSome) :
    getStatus s = .error := by
  unfold getStatus
  rw [if_pos (Or.inl h)]

theorem vstep_isSpeaking_false (s : VState) (e : VEvent)
    (h : s.isSpeaking = false) (he : e.isAudio = false) :
    (vstep s e).isSpeaking = false := by
  cases e with
  | audioDelta tid frame => simp [VEvent.isAudio] at he
  | interrupted =>
    simp only [vstep]
    rcases hi : s.player.interrupt with ⟨p, o⟩
    cases o with
    | none => simp
    | some pr =>
      rcases pr with ⟨tid, off⟩
      simp
  | speechStarted => simpa [vstep] using h
  | debounceFire =>
    simp only [vstep]
    split <;> simpa using h
  | speechStopped => simpa [vstep] using h
  | itemCompletedAudio => simp [vstep]
  | errorEvt => simpa [vstep] using h
  | disconnectedEvt => simpa [vstep] using h

theorem run_isSpeaking_false (s : VState) (es : List VEvent)
    (h : s.isSpeaking = false) (he : ∀ e ∈ es, e.isAudio = false) :
    (run s es).isSpeaking = false := by
  induction es generalizing s with
  | nil => simpa [run] using h
  | cons e rest ih =>
    have h1 : (vstep s e).isSpeaking = false :=
      vstep_isSpeaking_false s e h (he e (by simp))
    have := ih (vstep s e) h1 (fun x hx => he x (by simp [hx]))
    simpa [run] using this

theorem vstep_cancelled_mem (s : VState) (e : VEvent) (tid : Nat)
    (h : tid ∈ s.player.cancelledIds) :
    tid ∈ (vstep s e).player.cancelledIds := by
  cases e with
  | audioDelta t f =>
    simp only [vstep, PlayerState.add]
    split <;> simpa using h
  | interrupted =>
    simp only [vstep]
    rcases hi : s.player.interrupt with ⟨p, o⟩
    have hp : tid ∈ p.cancelledIds := by
      unfold PlayerState.interrupt at hi
      cases hc : s.player.current with
      | none =>
        rw [hc] at hi
        simp at hi
        rw [← hi.1]
        exact h
      | some t =>
        rw [hc] at hi
        simp at hi
        rw [← hi.1]
        simpa using Or.inr h
    cases o with
    | none => simpa using hp
    | some pr =>
      rcases pr with ⟨t, off⟩
      simpa using hp
  | speechStarted => simpa [vstep] using h
  | debounceFire =>
    simp only [vstep]
    split <;> simpa using h
  | speechStopped => simpa [vstep] using h
  | itemCompletedAudio => simpa [vstep] using h
  | errorEvt => simpa [vstep] using h
  | disconnectedEvt => simpa [vstep] using h

theorem vstep_playedOf_cancelled (s : VState) (e : VEvent) (tid : Nat)
    (h : tid ∈ s.player.cancelledIds) :
    playedOf (vstep s e) tid = playedOf s tid := by
  cases e with
  | audioDelta t f =>
    simp only [vstep, playedOf, PlayerState.add]
    split
    · rfl
    · rename_i hnc
      have hne : t ≠ tid := fun heq => hnc (heq ▸ h)
      simp [List.filter_append, hne]
  | interrupted =>
    simp only [vstep, playedOf]
    rcases hi : s.player.interrupt with ⟨p, o⟩
    have hp : p.played = s.player.played := by
      unfold PlayerState.interrupt at hi
      cases hc : s.player.current with
      | none =>
        rw [hc] at hi
        simp at hi
        rw [← hi.1]
      | some t =>
        rw [hc] at hi
        simp at hi
        rw [← hi.1]
    cases o with
    | none => simp [hp]
    | some pr =>
      rcases pr with ⟨t, off⟩
      simp [hp]
  | speechStarted => simp [vstep, playedOf]
  | debounceFire =>
    simp only [vstep, playedOf]
    split <;> simp
  | speechStopped => simp [vstep, playedOf]
  | itemCompletedAudio => simp [vstep, playedOf]
  | errorEvt => simp [vstep, playedOf]
  | disconnectedEvt => simp [vstep, playedOf]

theorem run_playedOf_cancelled (s : VState) (es : List VEvent) (tid : Nat)
    (h : tid ∈ s.player.cancelledIds) :
    playedOf (run s es) tid = playedOf s tid := by
  induction es generalizing s with
  | nil => rfl
  | cons e rest ih =>
    have h1 := vstep_cancelled_mem s e tid h
    have h2 := vstep_playedOf_cancelled s e tid h
    calc playedOf (run (vstep s e) rest) tid
        = playedOf (vstep s e) tid := ih (vstep s e) h1
      _ = playedOf s tid := h2

end Hira.Relay

namespace Hira.Relay

theorem getStatus_ne_thinking_of (s : VState) (h1 : s.isSpeaking = false)
    (h2 : s.isThinking = false) : getStatus s ≠ .thinking := by
  unfold getStatus
  rw [h1, h2]
  split_ifs <;> simp_all

theorem vstep_errorMsg_isSome (s : VState) (e : VEvent)
    (h : s.errorMsg.isSome) : (vstep s e).errorMsg.isSome := by
  cases e with
  | interrupted =>
    simp only [vstep]
    rcases hi : s.player.interrupt with ⟨p, o⟩
    cases o with
    | none => simpa using h
    | some pr =>
      rcases pr with ⟨tid, off⟩
      simpa using h
  | audioDelta t f => simpa [vstep] using h
  | speechStarted => simpa [vstep] using h
  | debounceFire =>
    simp only [vstep]
    split <;> simpa using h
  | speechStopped => simpa [vstep] using h
  | itemCompletedAudio => simpa [vstep] using h
  | errorEvt => simp [vstep]
  | disconnectedEvt => simpa [vstep] using h

theorem sessionStep_closed (sess : RelaySession) (e : VEvent)
    (h1 : sess.v.errorMsg.isSome) (h2 : sess.upstreamOpen = false)
    (h3 : sess.clientOpen = false) :
    (sessionStep sess e).v.errorMsg.isSome ∧
      (sessionStep sess e).upstreamOpen = false ∧
      (sessionStep sess e).clientOpen = false := by
  cases e with
  | errorEvt => exact ⟨by simp [sessionStep, vstep], rfl, rfl⟩
  | disconnectedEvt =>
    refine ⟨?_, rfl, rfl⟩
    simpa [sessionStep, vstep] using h1
  | speechStarted => exact ⟨vstep_errorMsg_isSome _ _ h1, h2, h3⟩
  | debounceFire => exact ⟨vstep_errorMsg_isSome _ _ h1, h2, h3⟩
  | speechStopped => exact ⟨vstep_errorMsg_isSome _ _ h1, h2, h3⟩
  | interrupted => exact ⟨vstep_errorMsg_isSome _ _ h1, h2, h3⟩
  | audioDelta t f => exact ⟨vstep_errorMsg_isSome _ _ h1, h2, h3⟩
  | itemCompletedAudio => exact ⟨vstep_errorMsg_isSome _ _ h1, h2, h3⟩

theorem runSession_closed (sess : RelaySession) (es : List VEvent)
    (h1 : sess.v.errorMsg.isSome) (h2 : sess.upstreamOpen = false)
    (h3 : sess.clientOpen = false) :
    (runSession sess es).v.errorMsg.isSome ∧
      (runSession sess es).upstreamOpen = false ∧
      (runSession sess es).clientOpen = false := by
  induction es generalizing sess with
  | nil => exact ⟨h1, h2, h3⟩
  | cons e rest ih =>
    obtain ⟨g1, g2, g3⟩ := sessionStep_closed sess e h1 h2 h3
    exact ih (sessionStep sess e) g1 g2 g3

/-- Claim C5: an upstream speech-start event in the `ready` state moves the
session to `listening` (once its 200 ms debounce timer fires), the
subsequent speech-stop event moves it to `thinking`, and the session never
enters or reports `speaking` while no reply audio has arrived (every event
trace free of audio deltas keeps the status away from `speaking`). -/
theorem claim_C5_ready_listening_thinking (s : VState)
    (h : getStatus s = .ready) :
    getStatus (vstep (vstep s .speechStarted) .debounceFire) = .listening ∧
    getStatus (vstep (vstep (vstep s .speechStarted) .debounceFire)
      .speechStopped) = .thinking ∧
    ∀ es : List VEvent, (∀ e ∈ es, e.isAudio = false) →
      getStatus (run s es) ≠ .speaking := by
  obtain ⟨hem, hconn, hsp, hth, hli⟩ := (getStatus_ready_iff s).1 h
  refine ⟨?_, ?_, ?_⟩
  · simp [vstep, getStatus, hem, hconn, hsp, hth]
  · simp [vstep, getStatus, hem, hconn, hsp]
  · intro es hes
    exact getStatus_ne_speaking_of _ (run_isSpeaking_false s es hsp hes)

/-- Witness for C5 at a concrete `ready` session state. -/
theorem claim_C5_ready_listening_thinking_witness :
    getStatus (vstep (vstep ({} : VState) .speechStarted) .debounceFire) =
      .listening ∧
    getStatus (vstep (vstep (vstep ({} : VState) .speechStarted)
      .debounceFire) .speechStopped) = .thinking ∧
    ∀ es : List VEvent, (∀ e ∈ es, e.isAudio = false) →
      getStatus (run ({} : VState) es) ≠ .speaking :=
  claim_C5_ready_listening_thinking {} (by decide)

/-- Claim C1: barge-in. In a `speaking` state with a reply track in flight,
the speech-start and conversation-interrupted events cancel the reply
upstream at the current playback offset (`cancelResponse(trackId, offset)`),
the session moves directly to `listening` (never `speaking` or `thinking`
in between), and no frame of the cancelled reply is ever forwarded to the
client afterwards, whatever events follow. -/
theorem claim_C1_barge_in (s : VState) (tid : Nat)
    (hs : getStatus s = .speaking) (hc : s.player.current = some tid) :
    (vstep (vstep s .speechStarted) .interrupted).cancelSignals =
      s.cancelSignals ++ [(tid, s.player.offsetOf tid)] ∧
    getStatus (vstep (vstep s .speechStarted) .interrupted) ≠ .speaking ∧
    getStatus (vstep (vstep s .speechStarted) .interrupted) ≠ .thinking ∧
    getStatus (vstep (vstep (vstep s .speechStarted) .interrupted)
      .debounceFire) = .listening ∧
    ∀ es : List VEvent,
      playedOf (run (vstep (vstep s .speechStarted) .interrupted) es) tid =
        playedOf (vstep (vstep s .speechStarted) .interrupted) tid := by
  obtain ⟨hem, hce, hsp⟩ := (getStatus_speaking_iff s).1 hs
  have hi : s.player.interrupt =
      ({s.player with
          cancelledIds := tid :: s.player.cancelledIds
          current := none},
        some (tid, s.player.offsetOf tid)) := by
    unfold PlayerState.interrupt
    rw [hc]
  refine ⟨?_, ?_, ?_, ?_, ?_⟩
  · simp [vstep, hi]
  · apply getStatus_ne_speaking_of
    simp [vstep, hi]
  · apply getStatus_ne_thinking_of <;> simp [vstep, hi]
  · simp [vstep, hi, getStatus, hem, hce]
  · intro es
    apply run_playedOf_cancelled
    simp [vstep, hi]

/-- Witness for C1 at a concrete `speaking` session state. -/
theorem claim_C1_barge_in_witness :
    (vstep (vstep speakingExample .speechStarted) .interrupted).cancelSignals =
      speakingExample.cancelSignals ++
        [(7, speakingExample.player.offsetOf 7)] ∧
    getStatus (vstep (vstep speakingExample .speechStarted) .interrupted) ≠
      .speaking ∧
    getStatus (vstep (vstep speakingExample .speechStarted) .interrupted) ≠
      .thinking ∧
    getStatus (vstep (vstep (vstep speakingExample .speechStarted)
      .interrupted) .debounceFire) = .listening ∧
    ∀ es : List VEvent,
      playedOf (run (vstep (vstep speakingExample .speechStarted)
        .interrupted) es) 7 =
        playedOf (vstep (vstep speakingExample .speechStarted) .interrupted) 7 :=
  claim_C1_barge_in speakingExample 7 (by decide) (by decide)

/-- Claim C6: an unrecoverable error event sends the session to the `error`
state and tears it down — both the upstream and the client connection
handles are released — and the session is never automatically retried:
every subsequent event leaves it in `error` with both handles released. -/
theorem claim_C6_error_teardown (sess : RelaySession) :
    getStatus (sessionStep sess .errorEvt).v = .error ∧
    (sessionStep sess .errorEvt).upstreamOpen = false ∧
    (sessionStep sess .errorEvt).clientOpen = false ∧
    ∀ es : List VEvent,
      getStatus (runSession (sessionStep sess .errorEvt) es).v = .error ∧
      (runSession (sessionStep sess .errorEvt) es).upstreamOpen = false ∧
      (runSession (sessionStep sess .errorEvt) es).clientOpen = false := by
  have h1 : (sessionStep sess .errorEvt).v.errorMsg.isSome := by
    simp [sessionStep, vstep]
  refine ⟨getStatus_error_of_isSome _ h1, rfl, rfl, ?_⟩
  intro es
  obtain ⟨g1, g2, g3⟩ := runSession_closed (sessionStep sess .errorEvt) es h1 rfl rfl
  exact ⟨getStatus_error_of_isSome _ g1, g2, g3⟩

end Hira.Relay

namespace Hira.WakeWord

/-- Claim C3: the wake-word gate's match is case-insensitive over the fixed
phrase set anchored at the start of the utterance: `"Hey HiRA, what is
HRBA?"` matches with remainder `"what is HRBA?"`; `"Hey HiRA"` alone (empty
remainder) does not match; `"What is HRBA?"` (no wake phrase) does not
match. -/
theorem claim_C3_wake_word_examples :
    wakeMatch "Hey HiRA, what is HRBA?".toList = some "what is HRBA?".toList ∧
    wakeMatch "Hey HiRA".toList = none ∧
    wakeMatch "What is HRBA?".toList = none := by
  decide

end Hira.WakeWord

namespace Hira.Transcript

/-- Claim C2: for every sequence of appends (of any length) the transcript
buffer is exactly the last `min n 50` appended entries in their original
insertion order — so its length never exceeds the capacity 50 and entries
are never reordered — and once the appended sequence has reached the
capacity, a further append evicts exactly the single oldest entry. -/
theorem claim_C2_transcript_fifo (es : List TranscriptEntry)
    (e : TranscriptEntry) :
    (buildBuf es).length ≤ capacity ∧
    buildBuf es = es.drop (es.length - capacity) ∧
    (capacity ≤ es.length →
      buildBuf (es ++ [e]) = (buildBuf es).tail ++ [e]) := by
  refine ⟨?_, buildBuf_eq_drop es, ?_⟩
  · rw [buildBuf_eq_drop es, List.length_drop]
    simp only [capacity]
    omega
  · intro hfull
    have hlen : (buildBuf es).length = capacity := by
      rw [buildBuf_eq_drop es, List.length_drop]
      simp only [capacity] at *
      omega
    unfold buildBuf
    rw [List.foldl_append, List.foldl_cons, List.foldl_nil]
    show append (buildBuf es) e = (buildBuf es).tail ++ [e]
    unfold append
    rw [if_neg (by omega)]

/-- Witness for C2 on a concrete 50-entry append sequence, with the
at-capacity eviction hypothesis discharged. -/
theorem claim_C2_transcript_fifo_witness :
    ((buildBuf (List.replicate 50 (⟨.user, "x", 0⟩ : TranscriptEntry))).length ≤
      capacity ∧
    buildBuf (List.replicate 50 (⟨.user, "x", 0⟩ : TranscriptEntry)) =
      (List.replicate 50 (⟨.user, "x", 0⟩ : TranscriptEntry)).drop
        ((List.replicate 50 (⟨.user, "x", 0⟩ : TranscriptEntry)).length -
          capacity) ∧
    (capacity ≤ (List.replicate 50 (⟨.user, "x", 0⟩ : TranscriptEntry)).length →
      buildBuf (List.replicate 50 (⟨.user, "x", 0⟩ : TranscriptEntry) ++
          [⟨.assistant, "y", 1⟩]) =
        (buildBuf (List.replicate 50 (⟨.user, "x", 0⟩ : TranscriptEntry))).tail ++
          [⟨.assistant, "y", 1⟩])) ∧
    capacity ≤ (List.replicate 50 (⟨.user, "x", 0⟩ : TranscriptEntry)).length :=
  ⟨claim_C2_transcript_fifo (List.replicate 50 ⟨.user, "x", 0⟩)
    ⟨.assistant, "y", 1⟩, by simp [capacity]⟩

end Hira.Transcript

namespace Hira.Bridge

theorem append_eq_ite (buf : List Transcript.TranscriptEntry)
    (e : Transcript.TranscriptEntry) :
    Transcript.append buf e =
      (if buf.length < Transcript.capacity then buf else buf.tail) ++ [e] := by
  unfold Transcript.append
  exact (apply_ite (· ++ [e]) _ buf buf.tail).symm

/-- Claim C4: when the retrieval collaborator is unreachable or errors, the
bridge returns a result with an explicit error indicator and empty passages
(no hard failure), the produced reply for an error result is the designated
fallback text, and the transcript buffer receives exactly one assistant
entry — the fallback — for that turn, never two. -/
theorem claim_C4_retrieval_failure (speak : List Passage → String)
    (buf : List Transcript.TranscriptEntry) (ts : Nat)
    (res : RetrievalResult) (herr : res.error.isSome) :
    (searchOutcome none).error.isSome = true ∧
    (searchOutcome none).passages = [] ∧
    (processRetrievalReply speak buf res ts).1 = fallbackText ∧
    (processRetrievalReply speak buf res ts).2 =
      (if buf.length < Transcript.capacity then buf else buf.tail) ++
        [⟨.assistant, fallbackText, ts⟩] ∧
    (buf.length < Transcript.capacity →
      Transcript.countAssistant (processRetrievalReply speak buf res ts).2 =
        Transcript.countAssistant buf + 1) := by
  obtain ⟨msg, hmsg⟩ := Option.isSome_iff_exists.1 herr
  have hreply : (processRetrievalReply speak buf res ts).1 = fallbackText := by
    simp [processRetrievalReply, hmsg]
  have hbuf : (processRetrievalReply speak buf res ts).2 =
      (if buf.length < Transcript.capacity then buf else buf.tail) ++
        [⟨.assistant, fallbackText, ts⟩] := by
    simp only [processRetrievalReply, hmsg]
    exact append_eq_ite buf _
  refine ⟨rfl, rfl, hreply, hbuf, ?_⟩
  intro hlt
  rw [hbuf, if_pos hlt]
  simp [Transcript.countAssistant, List.filter_append,
    Transcript.Speaker.isAssistant]

/-- Witness for C4 on a concrete failed retrieval. -/
theorem claim_C4_retrieval_failure_witness :
    (searchOutcome none).error.isSome = true ∧
    (searchOutcome none).passages = [] ∧
    (processRetrievalReply (fun _ => "") [] (searchOutcome none) 0).1 =
      fallbackText ∧
    (processRetrievalReply (fun _ => "") [] (searchOutcome none) 0).2 =
      (if ([] : List Transcript.TranscriptEntry).length < Transcript.capacity
        then ([] : List Transcript.TranscriptEntry) else [].tail) ++
        [⟨.assistant, fallbackText, 0⟩] ∧
    (([] : List Transcript.TranscriptEntry).length < Transcript.capacity →
      Transcript.countAssistant
        (processRetrievalReply (fun _ => "") [] (searchOutcome none) 0).2 =
        Transcript.countAssistant [] + 1) :=
  claim_C4_retrieval_failure (fun _ => "") [] 0 (searchOutcome none) rfl

/-- Claim C7: for a non-empty query the bridge forwards the query
requesting exactly the top 3 passages, truncates passage text to the
speech-synthesis length budget, and returns passages with their source
citations. -/
theorem claim_C7_retrieval_request (query : String) (raw : List Passage)
    (_hq : query ≠ "") :
    (buildRagRequest query).query = query ∧
    (buildRagRequest query).n_results = 3 ∧
    (bridgeRetrieve (buildRagRequest query) raw).passages.length ≤ 3 ∧
    ∀ p ∈ (bridgeRetrieve (buildRagRequest query) raw).passages,
      p.text.length ≤ truncBudget ∧
      ∃ q ∈ raw, p.source = q.source ∧ p.text = q.text.take truncBudget := by
  refine ⟨rfl, rfl, ?_, ?_⟩
  · simp only [bridgeRetrieve, buildRagRequest, List.length_map,
      List.length_take]
    omega
  · intro p hp
    simp only [bridgeRetrieve, buildRagRequest, List.mem_map] at hp
    obtain ⟨q, hq_mem, hq_eq⟩ := hp
    have hq_raw : q ∈ raw := List.mem_of_mem_take hq_mem
    refine ⟨?_, q, hq_raw, ?_, ?_⟩
    · rw [← hq_eq]
      simp [List.length_take]
    · rw [← hq_eq]
    · rw [← hq_eq]

/-- Witness for C7 on a concrete query and passage list. -/
theorem claim_C7_retrieval_request_witness :
    (buildRagRequest "what is HRBA").query = "what is HRBA" ∧
    (buildRagRequest "what is HRBA").n_results = 3 ∧
    (bridgeRetrieve (buildRagRequest "what is HRBA")
      [⟨"HRBA is a human rights-based approach".toList, "doc1"⟩]).passages.length ≤ 3 ∧
    ∀ p ∈ (bridgeRetrieve (buildRagRequest "what is HRBA")
        [⟨"HRBA is a human rights-based approach".toList, "doc1"⟩]).passages,
      p.text.length ≤ truncBudget ∧
      ∃ q ∈ [(⟨"HRBA is a human rights-based approach".toList, "doc1"⟩ : Passage)],
        p.source = q.source ∧ p.text = q.text.take truncBudget :=
  claim_C7_retrieval_request "what is HRBA" _ (by decide)

end Hira.Bridge

namespace Hira.Docs

/-- Claim C10: a selected file whose lower-cased extension is not one of
`.pdf`, `.docx`, `.txt`, `.md`, or whose size exceeds 50·1024·1024 bytes,
never reaches the upload API call: the handler sets an error upload status
and returns with the documents list unchanged. -/
theorem claim_C10_upload_validation (docs : List String) (f : JFile)
    (api : JFile → Except String (List String))
    (hbad : jsFileExt f.name ∉ allowedTypes ∨ f.size > 50 * 1024 * 1024) :
    (handleFileSelect docs (some f) api).uploadCalled = false ∧
    (handleFileSelect docs (some f) api).documents = docs ∧
    ∃ m, (handleFileSelect docs (some f) api).uploadStatus =
      some ⟨.error, m⟩ := by
  by_cases h1 : jsFileExt f.name ∉ allowedTypes
  · simp only [handleFileSelect]
    rw [if_pos h1]
    exact ⟨rfl, rfl, _, rfl⟩
  · have h : f.size > 50 * 1024 * 1024 := by
      rcases hbad with h | h
      · exact absurd h h1
      · exact h
    simp only [handleFileSelect]
    rw [if_neg h1, if_pos h]
    exact ⟨rfl, rfl, _, rfl⟩

/-- Witness for C10 on a concrete `.exe` file. -/
theorem claim_C10_upload_validation_witness :
    (handleFileSelect [] (some ⟨"virus.exe".toList, 10⟩)
      (fun _ => .error "")).uploadCalled = false ∧
    (handleFileSelect [] (some ⟨"virus.exe".toList, 10⟩)
      (fun _ => .error "")).documents = ([] : List String) ∧
    ∃ m, (handleFileSelect [] (some ⟨"virus.exe".toList, 10⟩)
      (fun _ => .error "")).uploadStatus = some ⟨.error, m⟩ :=
  claim_C10_upload_validation [] ⟨"virus.exe".toList, 10⟩ (fun _ => .error "")
    (Or.inl (by decide))

end Hira.Docs

namespace Hira.Chat

/-- Claim C9: for a non-empty chat input with the page not already loading,
a failed backend send leaves every other conversation unchanged, appends to
the active conversation exactly two messages — the user's trimmed message
followed by exactly one assistant error message — and resets the loading
flag to false. -/
theorem claim_C9_handleSend_failure (now : Nat) (s : ChatState)
    (hin : jtrim s.input ≠ []) (hload : s.loading = false) :
    (handleSend now none s).loading = false ∧
    (handleSend now none s).conversations = s.conversations.map (fun conv =>
      if conv.id = s.activeConversationId then
        {conv with
          messages := conv.messages ++
            [⟨"user", jtrim s.input, now, none, false⟩,
              ⟨"assistant", errorReplyText, now, none, true⟩]
          ts := now}
      else conv) := by
  unfold handleSend
  rw [if_neg (by simp [hin, hload])]
  refine ⟨rfl, ?_⟩
  simp only [List.map_map]
  apply List.map_congr_left
  intro conv hconv
  by_cases hid : conv.id = s.activeConversationId
  · simp [Function.comp, hid]
  · simp [Function.comp, hid]

/-- Witness for C9 on a concrete two-conversation state. -/
theorem claim_C9_handleSend_failure_witness :
    (handleSend 5 none
      ⟨[⟨"c1", "T".toList, 0, []⟩, ⟨"c2", "T".toList, 0, []⟩], "c1",
        "hi".toList, false⟩).loading = false ∧
    (handleSend 5 none
      ⟨[⟨"c1", "T".toList, 0, []⟩, ⟨"c2", "T".toList, 0, []⟩], "c1",
        "hi".toList, false⟩).conversations =
      ([⟨"c1", "T".toList, 0, []⟩, ⟨"c2", "T".toList, 0, []⟩] :
          List Conversation).map (fun conv =>
        if conv.id = "c1" then
          {conv with
            messages := conv.messages ++
              [⟨"user", jtrim "hi".toList, 5, none, false⟩,
                ⟨"assistant", errorReplyText, 5, none, true⟩]
            ts := 5}
        else conv) :=
  claim_C9_handleSend_failure 5
    ⟨[⟨"c1", "T".toList, 0, []⟩, ⟨"c2", "T".toList, 0, []⟩], "c1",
      "hi".toList, false⟩ (by decide) rfl

end Hira.Chat

namespace Hira.Meeting

theorem startsDash_nil : startsDash [] = false := rfl

theorem startsHH_nil : startsHH [] = false := rfl

theorem getLastD_irrel (p : JStr) (hp : p ≠ []) (d e : Char) :
    p.getLastD d = p.getLastD e := by
  rcases List.eq_nil_or_concat p with rfl | ⟨i, a, rfl⟩
  · contradiction
  · simp [List.concat_eq_append, List.getLastD_concat]

/-- A clean string stays clean when a newline-free, non-whitespace-headed
prefix is prepended. -/
theorem clean_prepend {p : JStr} (h : Clean p) (pre : JStr) (hpre : pre ≠ [])
    (hw : jsWS (pre.headD 'x') = false) (hn : ∀ c ∈ pre, c ≠ '\n') :
    Clean (pre ++ p) := by
  obtain ⟨hne, hnl, hhd, hl⟩ := h
  refine ⟨by simp [hpre], ?_, ?_, ?_⟩
  · intro c hc
    rcases List.mem_append.1 hc with hc | hc
    · exact hn c hc
    · exact hnl c hc
  · cases pre with
    | nil => contradiction
    | cons a rest => simpa using hw
  · rcases List.eq_nil_or_concat p with rfl | ⟨i, a, rfl⟩
    · contradiction
    · rw [List.concat_eq_append] at *
      rw [← List.append_assoc, List.getLastD_concat]
      rw [List.getLastD_concat] at hl
      exact hl

theorem clean_dashItem {p : JStr} (h : Clean p) : Clean (dashItem p) :=
  clean_prepend h ['-', ' '] (by decide) (by decide) (by decide)

theorem clean_hhItem {t : JStr} (h : Clean t) : Clean (hhItem t) :=
  clean_prepend h ['#', '#', ' '] (by decide) (by decide) (by decide)

theorem jtrim_dashItem {p : JStr} (h : Clean p) :
    jtrim (dashItem p) = dashItem p := jtrim_of_clean (clean_dashItem h)

theorem jtrim_hhItem {t : JStr} (h : Clean t) :
    jtrim (hhItem t) = hhItem t := jtrim_of_clean (clean_hhItem h)

theorem ne_of_startsDash {l h : JStr} (hl : startsDash l = true)
    (hh : startsDash h = false) : l ≠ h := by
  intro he
  rw [he, hh] at hl
  exact absurd hl (by simp)

theorem ne_of_startsHH {l h : JStr} (hl : startsHH l = true)
    (hh : startsHH h = false) : l ≠ h := by
  intro he
  rw [he, hh] at hl
  exact absurd hl (by simp)

theorem startsDash_dashItem (p : JStr) : startsDash (dashItem p) = true := rfl

theorem startsHH_hhItem (t : JStr) : startsHH (hhItem t) = true := rfl

theorem startsHH_dashItem (p : JStr) : startsHH (dashItem p) = false := rfl

theorem jtrim_hdrSummary : jtrim hdrSummary = hdrSummary := by decide

theorem jtrim_hdrParticipants : jtrim hdrParticipants = hdrParticipants := by
  decide

theorem jtrim_hdrNotes : jtrim hdrNotes = hdrNotes := by decide

theorem jtrim_hdrNextSteps : jtrim hdrNextSteps = hdrNextSteps := by decide

/-- The empty line is inert for the parse loop in every state. -/
theorem parseLine_nil (s : ParseState) : parseLine s [] = s := by
  simp only [parseLine, jtrim_nil]
  rw [if_neg (by decide), if_neg (by decide), if_neg (by decide),
    if_neg (by decide)]
  rw [if_neg (by simp)]
  rw [if_neg (by simp [startsDash_nil])]
  by_cases h7 : s.currentSection = "notes"
  · rw [if_pos h7, if_neg (by simp [startsHH_nil]),
      if_neg (by simp [startsDash_nil])]
  · rw [if_neg h7, if_neg (by simp [startsDash_nil])]

theorem parseLine_hdrSummary (s : ParseState) :
    parseLine s hdrSummary = {s with currentSection := "summary"} := by
  simp [parseLine, jtrim_hdrSummary]

theorem parseLine_hdrParticipants (s : ParseState) :
    parseLine s hdrParticipants = {s with currentSection := "participants"} := by
  simp only [parseLine, jtrim_hdrParticipants]
  rw [if_neg (show hdrParticipants ≠ hdrSummary from by decide)]
  simp

theorem parseLine_hdrNotes (s : ParseState) :
    parseLine s hdrNotes = {s with currentSection := "notes"} := by
  simp only [parseLine, jtrim_hdrNotes]
  rw [if_neg (show hdrNotes ≠ hdrSummary from by decide),
    if_neg (show hdrNotes ≠ hdrParticipants from by decide)]
  simp

theorem parseLine_hdrNextSteps (s : ParseState) :
    parseLine s hdrNextSteps = {s with currentSection := "next_steps"} := by
  simp only [parseLine, jtrim_hdrNextSteps]
  rw [if_neg (show hdrNextSteps ≠ hdrSummary from by decide),
    if_neg (show hdrNextSteps ≠ hdrParticipants from by decide),
    if_neg (show hdrNextSteps ≠ hdrNotes from by decide)]
  simp

theorem parseLine_summary_line (s : ParseState) (sum : JStr)
    (hc : Clean sum) (hsD : startsDash sum = false) (hsH : startsHH sum = false)
    (h1 : sum ≠ hdrSummary) (h2 : sum ≠ hdrParticipants) (h3 : sum ≠ hdrNotes)
    (h4 : sum ≠ hdrNextSteps) (hsec : s.currentSection = "summary")
    (hs0 : s.summary = []) :
    parseLine s sum = {s with summary := sum} := by
  simp only [parseLine, jtrim_of_clean hc]
  rw [if_neg h1, if_neg h2, if_neg h3, if_neg h4,
    if_pos ⟨hsec, hc.1, hsH, hsD⟩, if_pos hs0]

theorem parseLine_dash_participants (s : ParseState) (p : JStr) (hp : Clean p)
    (hsec : s.currentSection = "participants") :
    parseLine s (dashItem p) = {s with participants := s.participants ++ [p]} := by
  simp only [parseLine, jtrim_dashItem hp]
  rw [if_neg (ne_of_startsDash (startsDash_dashItem p) (by decide)),
    if_neg (ne_of_startsDash (startsDash_dashItem p) (by decide)),
    if_neg (ne_of_startsDash (startsDash_dashItem p) (by decide)),
    if_neg (ne_of_startsDash (startsDash_dashItem p) (by decide))]
  rw [if_neg (by rintro ⟨hsum, -⟩; rw [hsec] at hsum; exact absurd hsum (by decide))]
  rw [if_pos ⟨hsec, startsDash_dashItem p⟩]
  have hdrop : jtrim (List.drop 1 (dashItem p)) = p := by
    show jtrim (' ' :: p) = p
    exact jtrim_space_cons hp
  rw [hdrop]

theorem parseLine_hh_notes (s : ParseState) (t : JStr) (ht : Clean t)
    (hsec : s.currentSection = "notes") :
    parseLine s (hhItem t) =
      {s with
        currentTopic := t
        structured_notes := setTopic s.structured_notes t} := by
  simp only [parseLine, jtrim_hhItem ht]
  rw [if_neg (ne_of_startsHH (startsHH_hhItem t) (by decide)),
    if_neg (ne_of_startsHH (startsHH_hhItem t) (by decide)),
    if_neg (ne_of_startsHH (startsHH_hhItem t) (by decide)),
    if_neg (ne_of_startsHH (startsHH_hhItem t) (by decide))]
  rw [if_neg (by rintro ⟨hsum, -⟩; rw [hsec] at hsum; exact absurd hsum (by decide))]
  rw [if_neg (by rintro ⟨hpart, -⟩; rw [hsec] at hpart; exact absurd hpart (by decide))]
  rw [if_pos hsec, if_pos (startsHH_hhItem t)]
  have hdrop : jtrim (List.drop 2 (hhItem t)) = t := by
    show jtrim (' ' :: t) = t
    exact jtrim_space_cons ht
  rw [hdrop]

theorem parseLine_dash_notes (s : ParseState) (n : JStr) (hn : Clean n)
    (hsec : s.currentSection = "notes") (htop : s.currentTopic ≠ []) :
    parseLine s (dashItem n) =
      {s with structured_notes :=
        pushNote s.structured_notes s.currentTopic n} := by
  simp only [parseLine, jtrim_dashItem hn]
  rw [if_neg (ne_of_startsDash (startsDash_dashItem n) (by decide)),
    if_neg (ne_of_startsDash (startsDash_dashItem n) (by decide)),
    if_neg (ne_of_startsDash (startsDash_dashItem n) (by decide)),
    if_neg (ne_of_startsDash (startsDash_dashItem n) (by decide))]
  rw [if_neg (by rintro ⟨hsum, -⟩; rw [hsec] at hsum; exact absurd hsum (by decide))]
  rw [if_neg (by rintro ⟨hpart, -⟩; rw [hsec] at hpart; exact absurd hpart (by decide))]
  rw [if_pos hsec, if_neg (by simp [startsHH_dashItem]),
    if_pos ⟨startsDash_dashItem n, htop⟩]
  have hdrop : jtrim (List.drop 1 (dashItem n)) = n := by
    show jtrim (' ' :: n) = n
    exact jtrim_space_cons hn
  rw [hdrop]

theorem parseLine_dash_next_steps (s : ParseState) (p : JStr) (hp : Clean p)
    (hsec : s.currentSection = "next_steps") :
    parseLine s (dashItem p) = {s with next_steps := s.next_steps ++ [p]} := by
  simp only [parseLine, jtrim_dashItem hp]
  rw [if_neg (ne_of_startsDash (startsDash_dashItem p) (by decide)),
    if_neg (ne_of_startsDash (startsDash_dashItem p) (by decide)),
    if_neg (ne_of_startsDash (startsDash_dashItem p) (by decide)),
    if_neg (ne_of_startsDash (startsDash_dashItem p) (by decide))]
  rw [if_neg (by rintro ⟨hsum, -⟩; rw [hsec] at hsum; exact absurd hsum (by decide))]
  rw [if_neg (by rintro ⟨hpart, -⟩; rw [hsec] at hpart; exact absurd hpart (by decide))]
  rw [if_neg (by rw [hsec]; decide)]
  rw [if_pos ⟨hsec, startsDash_dashItem p⟩]
  have hdrop : jtrim (List.drop 1 (dashItem p)) = p := by
    show jtrim (' ' :: p) = p
    exact jtrim_space_cons hp
  rw [hdrop]

end Hira.Meeting

namespace Hira.Meeting

/-- Folding the participant bullet lines appends the participants in order. -/
theorem foldl_dash_participants (ps : List JStr) (s : ParseState)
    (hps : ∀ p ∈ ps, Clean p) (hsec : s.currentSection = "participants") :
    List.foldl parseLine s (ps.map dashItem) =
      {s with participants := s.participants ++ ps} := by
  induction ps generalizing s with
  | nil => simp
  | cons p rest ih =>
    have hp : Clean p := hps p (by simp)
    have hrest : ∀ q ∈ rest, Clean q := fun q hq => hps q (by simp [hq])
    simp only [List.map_cons, List.foldl_cons]
    rw [parseLine_dash_participants s p hp hsec]
    rw [ih {s with participants := s.participants ++ [p]} hrest hsec]
    simp

/-- Folding the next-step bullet lines appends the steps in order. -/
theorem foldl_dash_next_steps (ps : List JStr) (s : ParseState)
    (hps : ∀ p ∈ ps, Clean p) (hsec : s.currentSection = "next_steps") :
    List.foldl parseLine s (ps.map dashItem) =
      {s with next_steps := s.next_steps ++ ps} := by
  induction ps generalizing s with
  | nil => simp
  | cons p rest ih =>
    have hp : Clean p := hps p (by simp)
    have hrest : ∀ q ∈ rest, Clean q := fun q hq => hps q (by simp [hq])
    simp only [List.map_cons, List.foldl_cons]
    rw [parseLine_dash_next_steps s p hp hsec]
    rw [ih {s with next_steps := s.next_steps ++ [p]} hrest hsec]
    simp

theorem setTopic_not_mem (N : List (JStr × List JStr)) (t : JStr)
    (h : ∀ kv ∈ N, kv.1 ≠ t) : setTopic N t = N ++ [(t, [])] := by
  unfold setTopic
  rw [if_neg ?_]
  simp only [List.any_eq_true, decide_eq_true_eq, not_exists]
  rintro kv ⟨hkv, he⟩
  exact h kv hkv he

theorem pushNote_append (N : List (JStr × List JStr)) (t : JStr)
    (vs : List JStr) (n : JStr) (h : ∀ kv ∈ N, kv.1 ≠ t) :
    pushNote (N ++ [(t, vs)]) t n = N ++ [(t, vs ++ [n])] := by
  unfold pushNote
  rw [List.map_append]
  congr 1
  · have hmap : N.map (fun kv => if kv.1 = t then (kv.1, kv.2 ++ [n]) else kv) =
        N.map id := List.map_congr_left (fun kv hkv => if_neg (h kv hkv))
    rw [hmap, List.map_id]
  · simp

/-- Folding the note bullet lines of the current topic appends the notes to
that topic's entry. -/
theorem foldl_dash_notes (ns : List JStr) (s : ParseState) (t : JStr)
    (N : List (JStr × List JStr)) (vs : List JStr)
    (hns : ∀ n ∈ ns, Clean n) (hsec : s.currentSection = "notes")
    (htop : s.currentTopic = t) (ht : t ≠ [])
    (hN : s.structured_notes = N ++ [(t, vs)]) (hkeys : ∀ kv ∈ N, kv.1 ≠ t) :
    List.foldl parseLine s (ns.map dashItem) =
      {s with structured_notes := N ++ [(t, vs ++ ns)]} := by
  induction ns generalizing s vs with
  | nil =>
    simp only [List.map_nil, List.foldl_nil, List.append_nil]
    rw [← hN]
  | cons n rest ih =>
    have hn : Clean n := hns n (by simp)
    have hrest : ∀ q ∈ rest, Clean q := fun q hq => hns q (by simp [hq])
    simp only [List.map_cons, List.foldl_cons]
    rw [parseLine_dash_notes s n hn hsec (htop ▸ ht)]
    rw [htop, hN, pushNote_append N t vs n hkeys]
    rw [ih {s with currentTopic := t, structured_notes := N ++ [(t, vs ++ [n])]}
      (vs ++ [n]) hrest hsec rfl rfl]
    simp

/-- Folding a whole topics block (blank line, `## topic`, bullet notes, per
topic) appends the topics with their notes, in order. -/
theorem foldl_topics (topics : List (JStr × List JStr)) (s : ParseState)
    (N : List (JStr × List JStr))
    (hclean : ∀ tn ∈ topics, Clean tn.1 ∧ ∀ n ∈ tn.2, Clean n)
    (hnodup : (topics.map Prod.fst).Nodup)
    (hdisj : ∀ tn ∈ topics, ∀ kv ∈ N, kv.1 ≠ tn.1)
    (hsec : s.currentSection = "notes") (hN : s.structured_notes = N) :
    ∃ tp, List.foldl parseLine s
        (topics.flatMap (fun tn => [] :: hhItem tn.1 :: tn.2.map dashItem)) =
      {s with
        currentTopic := tp
        structured_notes := N ++ topics} := by
  induction topics generalizing s N with
  | nil =>
    refine ⟨s.currentTopic, ?_⟩
    simp [← hN]
  | cons tn rest ih =>
    obtain ⟨t, ns⟩ := tn
    have hct : Clean t := (hclean (t, ns) (by simp)).1
    have hcns : ∀ n ∈ ns, Clean n := (hclean (t, ns) (by simp)).2
    have hkeys : ∀ kv ∈ N, kv.1 ≠ t := by
      intro kv hkv
      exact hdisj (t, ns) (by simp) kv hkv
    simp only [List.flatMap_cons, List.cons_append, List.foldl_cons,
      List.foldl_append]
    rw [parseLine_nil]
    rw [parseLine_hh_notes s t hct hsec]
    rw [show setTopic s.structured_notes t = N ++ [(t, [])] from by
      rw [hN]; exact setTopic_not_mem N t hkeys]
    rw [foldl_dash_notes ns
      {s with currentTopic := t, structured_notes := N ++ [(t, [])]} t N []
      hcns hsec rfl hct.1 rfl hkeys]
    have hrest_clean : ∀ tn ∈ rest, Clean tn.1 ∧ ∀ n ∈ tn.2, Clean n :=
      fun x hx => hclean x (by simp [hx])
    have hrest_nodup : (rest.map Prod.fst).Nodup := by
      simpa using (List.nodup_cons.1 (by simpa using hnodup)).2
    have hrest_disj : ∀ tn ∈ rest, ∀ kv ∈ N ++ [(t, [] ++ ns)], kv.1 ≠ tn.1 := by
      intro x hx kv hkv
      rcases List.mem_append.1 hkv with hkv | hkv
      · exact hdisj x (by simp [hx]) kv hkv
      · simp only [List.mem_singleton] at hkv
        subst hkv
        have ht_notin : t ∉ rest.map Prod.fst :=
          (List.nodup_cons.1 (by simpa using hnodup)).1
        intro he
        apply ht_notin
        have hx1 : x.1 ∈ List.map Prod.fst rest :=
          List.mem_map_of_mem Prod.fst hx
        have he' : t = x.1 := he
        rw [he']
        exact hx1
    obtain ⟨tp, htp⟩ := ih
      {s with
        currentTopic := t
        structured_notes := N ++ [(t, [] ++ ns)]}
      (N ++ [(t, [] ++ ns)]) hrest_clean hrest_nodup hrest_disj hsec rfl
    refine ⟨tp, ?_⟩
    rw [htp]
    simp

end Hira.Meeting

namespace Hira.Meeting

/-- Folding the SUMMARY block sets the summary (empty summary emits no
block and leaves the state unchanged). -/
theorem foldl_summary_block (s : ParseState) (sum : JStr)
    (hc : sum = [] ∨ (Clean sum ∧ startsDash sum = false ∧
      startsHH sum = false ∧ sum ≠ hdrSummary ∧ sum ≠ hdrParticipants ∧
      sum ≠ hdrNotes ∧ sum ≠ hdrNextSteps))
    (hs0 : s.summary = []) :
    List.foldl parseLine s (if sum = [] then [] else [hdrSummary, sum, []]) =
      {s with
        currentSection := if sum = [] then s.currentSection else "summary"
        summary := sum} := by
  rcases hc with rfl | ⟨hc, hsD, hsH, h1, h2, h3, h4⟩
  · simp [← hs0]
  · rw [if_neg hc.1]
    simp only [List.foldl_cons, List.foldl_nil]
    rw [parseLine_hdrSummary s]
    rw [parseLine_summary_line {s with currentSection := "summary"} sum hc hsD
      hsH h1 h2 h3 h4 rfl hs0]
    rw [parseLine_nil]
    rw [if_neg hc.1]

/-- Folding the PARTICIPANTS block appends the participants. -/
theorem foldl_participants_block (s : ParseState) (ps : List JStr)
    (hps : ∀ p ∈ ps, Clean p) :
    List.foldl parseLine s
      (if ps = [] then [] else hdrParticipants :: (ps.map dashItem ++ [[]])) =
      {s with
        currentSection := if ps = [] then s.currentSection else "participants"
        participants := s.participants ++ ps} := by
  rcases eq_or_ne ps [] with rfl | hne
  · simp
  · rw [if_neg hne, if_neg hne]
    simp only [List.foldl_cons]
    rw [parseLine_hdrParticipants s, List.foldl_append]
    rw [foldl_dash_participants ps {s with currentSection := "participants"}
      hps rfl]
    simp only [List.foldl_cons, List.foldl_nil]
    rw [parseLine_nil]

/-- Folding the MEETING NOTES block appends the topics with their notes. -/
theorem foldl_notes_block (s : ParseState) (topics : List (JStr × List JStr))
    (hclean : ∀ tn ∈ topics, Clean tn.1 ∧ ∀ n ∈ tn.2, Clean n)
    (hnodup : (topics.map Prod.fst).Nodup) (hN : s.structured_notes = []) :
    ∃ tp, List.foldl parseLine s
        (if topics = [] then [] else
          hdrNotes :: (topics.flatMap
            (fun tn => [] :: hhItem tn.1 :: tn.2.map dashItem) ++ [[]])) =
      {s with
        currentSection := if topics = [] then s.currentSection else "notes"
        currentTopic := tp
        structured_notes := topics} := by
  rcases eq_or_ne topics [] with rfl | hne
  · exact ⟨s.currentTopic, by simp [← hN]⟩
  · obtain ⟨tp, htp⟩ := foldl_topics topics {s with currentSection := "notes"}
      [] hclean hnodup (fun tn htn kv hkv => absurd hkv (by simp)) rfl hN
    refine ⟨tp, ?_⟩
    rw [if_neg hne, if_neg hne]
    simp only [List.foldl_cons]
    rw [parseLine_hdrNotes s, List.foldl_append, htp]
    simp only [List.foldl_cons, List.foldl_nil]
    rw [parseLine_nil]
    simp

/-- Folding the NEXT STEPS block appends the steps. -/
theorem foldl_steps_block (s : ParseState) (ps : List JStr)
    (hps : ∀ p ∈ ps, Clean p) :
    List.foldl parseLine s
      (if ps = [] then [] else hdrNextSteps :: ps.map dashItem) =
      {s with
        currentSection := if ps = [] then s.currentSection else "next_steps"
        next_steps := s.next_steps ++ ps} := by
  rcases eq_or_ne ps [] with rfl | hne
  · simp
  · rw [if_neg hne, if_neg hne]
    simp only [List.foldl_cons]
    rw [parseLine_hdrNextSteps s]
    rw [foldl_dash_next_steps ps {s with currentSection := "next_steps"}
      hps rfl]

/-- Joining with separators then a final newline equals per-line newlines. -/
theorem joinLines_eq_joinNL (xs : List JStr) (h : xs ≠ []) :
    joinLines xs = joinNL xs ++ ['\n'] := by
  induction xs with
  | nil => contradiction
  | cons x rest ih =>
    cases rest with
    | nil => simp [joinLines, joinNL]
    | cons y rest2 =>
      have hx : joinLines (x :: y :: rest2) = x ++ '\n' :: joinLines (y :: rest2) := by
        simp [joinLines]
      rw [hx, ih (by simp), joinNL]
      simp

/-- `joinLines` over a map is a flat map of terminated lines. -/
theorem joinLines_map (f : JStr → JStr) (l : List JStr) :
    joinLines (l.map f) = l.flatMap (fun x => f x ++ ['\n']) := by
  induction l with
  | nil => rfl
  | cons x rest ih =>
    simp only [List.map_cons, List.flatMap_cons, ← ih]
    simp [joinLines]

end Hira.Meeting

namespace Hira.Meeting

/-- The formatted meeting text splits into exactly the block lines (plus the
final empty piece from the terminating newline). -/
theorem splitNL_format (m : PMeeting)
    (hsum_nl : ∀ c ∈ m.summary, c ≠ '\n')
    (hps : ∀ p ∈ m.key_stakeholders, Clean p)
    (htop : ∀ tn ∈ m.structured_notes, Clean tn.1 ∧ ∀ n ∈ tn.2, Clean n)
    (hsteps : ∀ p ∈ m.next_steps, Clean p) :
    splitNL (formatMeetingAsText m) =
      ((if m.summary = [] then [] else [hdrSummary, m.summary, []]) ++
        (if m.key_stakeholders = [] then [] else
          hdrParticipants :: (m.key_stakeholders.map dashItem ++ [[]])) ++
        (if m.structured_notes = [] then [] else
          hdrNotes :: (m.structured_notes.flatMap
            (fun tn => [] :: hhItem tn.1 :: tn.2.map dashItem) ++ [[]])) ++
        (if m.next_steps = [] then [] else
          hdrNextSteps :: m.next_steps.map dashItem)) ++ [[]] := by
  have h1 : (if m.summary = [] then ([] : JStr)
        else hdrSummary ++ '\n' :: m.summary ++ '\n' :: '\n' :: []) =
      joinLines (if m.summary = [] then [] else [hdrSummary, m.summary, []]) := by
    rcases eq_or_ne m.summary [] with h | h
    · simp [h, joinLines]
    · rw [if_neg h, if_neg h]
      simp [joinLines]
  have h2 : (if m.key_stakeholders = [] then ([] : JStr)
        else hdrParticipants ++ '\n' ::
          joinNL (m.key_stakeholders.map dashItem) ++ '\n' :: '\n' :: []) =
      joinLines (if m.key_stakeholders = [] then [] else
        hdrParticipants :: (m.key_stakeholders.map dashItem ++ [[]])) := by
    rcases eq_or_ne m.key_stakeholders [] with h | h
    · simp [h, joinLines]
    · rw [if_neg h, if_neg h]
      have hmaps : m.key_stakeholders.map dashItem ≠ [] := by
        simpa using h
      have hj : joinLines (m.key_stakeholders.map dashItem) =
          joinNL (m.key_stakeholders.map dashItem) ++ ['\n'] :=
        joinLines_eq_joinNL _ hmaps
      have hcons : joinLines (hdrParticipants ::
            (m.key_stakeholders.map dashItem ++ [[]])) =
          (hdrParticipants ++ ['\n']) ++
            (joinLines (m.key_stakeholders.map dashItem) ++ joinLines [[]]) := by
        simp [joinLines]
      rw [hcons, hj]
      simp [joinLines]
  have h3 : (if m.structured_notes = [] then ([] : JStr)
        else hdrNotes ++ '\n' :: (m.structured_notes.flatMap (fun tn =>
          '\n' :: (hhItem tn.1 ++ '\n' ::
            tn.2.flatMap (fun n => dashItem n ++ ['\n'])))) ++ ['\n']) =
      joinLines (if m.structured_notes = [] then [] else
        hdrNotes :: (m.structured_notes.flatMap
          (fun tn => [] :: hhItem tn.1 :: tn.2.map dashItem) ++ [[]])) := by
    rcases eq_or_ne m.structured_notes [] with h | h
    · simp [h, joinLines]
    · rw [if_neg h, if_neg h]
      have hflat : joinLines (m.structured_notes.flatMap
            (fun tn => [] :: hhItem tn.1 :: tn.2.map dashItem)) =
          m.structured_notes.flatMap (fun tn =>
            '\n' :: (hhItem tn.1 ++ '\n' ::
              tn.2.flatMap (fun n => dashItem n ++ ['\n']))) := by
        induction m.structured_notes with
        | nil => rfl
        | cons tn rest ih =>
          simp only [List.flatMap_cons, joinLines_append, ih]
          congr 1
          have hmap := joinLines_map dashItem tn.2
          simp only [joinLines] at hmap
          simp [joinLines, hmap]
      have hcons : joinLines (hdrNotes :: (m.structured_notes.flatMap
            (fun tn => [] :: hhItem tn.1 :: tn.2.map dashItem) ++ [[]])) =
          (hdrNotes ++ ['\n']) ++
            (joinLines (m.structured_notes.flatMap
              (fun tn => [] :: hhItem tn.1 :: tn.2.map dashItem)) ++
              joinLines [[]]) := by
        simp [joinLines]
      rw [hcons, hflat]
      simp [joinLines]
  have h4 : (if m.next_steps = [] then ([] : JStr)
        else hdrNextSteps ++ '\n' :: joinNL (m.next_steps.map dashItem) ++ ['\n']) =
      joinLines (if m.next_steps = [] then [] else
        hdrNextSteps :: m.next_steps.map dashItem) := by
    rcases eq_or_ne m.next_steps [] with h | h
    · simp [h, joinLines]
    · rw [if_neg h, if_neg h]
      have hmaps : m.next_steps.map dashItem ≠ [] := by
        simpa using h
      have hj : joinLines (m.next_steps.map dashItem) =
          joinNL (m.next_steps.map dashItem) ++ ['\n'] :=
        joinLines_eq_joinNL _ hmaps
      have hcons : joinLines (hdrNextSteps :: m.next_steps.map dashItem) =
          (hdrNextSteps ++ ['\n']) ++ joinLines (m.next_steps.map dashItem) := by
        simp [joinLines]
      rw [hcons, hj]
      simp
  have hfmt : formatMeetingAsText m =
      joinLines ((if m.summary = [] then [] else [hdrSummary, m.summary, []]) ++
        (if m.key_stakeholders = [] then [] else
          hdrParticipants :: (m.key_stakeholders.map dashItem ++ [[]])) ++
        (if m.structured_notes = [] then [] else
          hdrNotes :: (m.structured_notes.flatMap
            (fun tn => [] :: hhItem tn.1 :: tn.2.map dashItem) ++ [[]])) ++
        (if m.next_steps = [] then [] else
          hdrNextSteps :: m.next_steps.map dashItem)) := by
    rw [joinLines_append, joinLines_append, joinLines_append]
    rw [← h1, ← h2, ← h3, ← h4]
    rfl
  rw [hfmt]
  apply splitNL_joinLines
  intro l hl
  simp only [List.mem_append] at hl
  rcases hl with ((hl | hl) | hl) | hl
  · rcases eq_or_ne m.summary [] with h | h
    · rw [if_pos h] at hl
      simp at hl
    · rw [if_neg h] at hl
      simp only [List.mem_cons, List.not_mem_nil, or_false] at hl
      rcases hl with rfl | rfl | rfl
      · decide
      · intro hmem
        exact (hsum_nl '\n' hmem) rfl
      · simp
  · rcases eq_or_ne m.key_stakeholders [] with h | h
    · rw [if_pos h] at hl
      simp at hl
    · rw [if_neg h] at hl
      simp only [List.mem_cons, List.mem_append, List.mem_map,
        List.not_mem_nil, or_false] at hl
      rcases hl with rfl | ⟨p, hp, rfl⟩ | rfl
      · decide
      · exact (clean_dashItem (hps p hp)).no_newline
      · simp
  · rcases eq_or_ne m.structured_notes [] with h | h
    · rw [if_pos h] at hl
      simp at hl
    · rw [if_neg h] at hl
      simp only [List.mem_cons, List.mem_append, List.mem_flatMap,
        List.mem_map, List.not_mem_nil, or_false] at hl
      rcases hl with rfl | ⟨tn, htn, rfl | rfl | ⟨n, hn, rfl⟩⟩ | rfl
      · decide
      · simp
      · exact (clean_hhItem (htop tn htn).1).no_newline
      · exact (clean_dashItem ((htop tn htn).2 n hn)).no_newline
      · simp
  · rcases eq_or_ne m.next_steps [] with h | h
    · rw [if_pos h] at hl
      simp at hl
    · rw [if_neg h] at hl
      simp only [List.mem_cons, List.mem_map] at hl
      rcases hl with rfl | ⟨p, hp, rfl⟩
      · decide
      · exact (clean_dashItem (hsteps p hp)).no_newline

end Hira.Meeting

namespace Hira.Meeting

/-- Claim C8 (amended): the meeting text edit format round-trips —
`parseMeetingText (formatMeetingAsText m) = m` — for every meeting whose
summary is a single line without leading or trailing whitespace that does
not begin with `-` or `##` and is not itself one of the section header
lines, and whose participants, topics, notes, and next steps are non-empty
single-line strings without leading or trailing whitespace, with pairwise
distinct topic names. -/
theorem claim_C8_roundtrip_amended (m : PMeeting)
    (hsum : m.summary = [] ∨ (Clean m.summary ∧ startsDash m.summary = false ∧
      startsHH m.summary = false ∧ m.summary ≠ hdrSummary ∧
      m.summary ≠ hdrParticipants ∧ m.summary ≠ hdrNotes ∧
      m.summary ≠ hdrNextSteps))
    (hps : ∀ p ∈ m.key_stakeholders, Clean p)
    (htop : ∀ tn ∈ m.structured_notes, Clean tn.1 ∧ ∀ n ∈ tn.2, Clean n)
    (hnodup : (m.structured_notes.map Prod.fst).Nodup)
    (hsteps : ∀ p ∈ m.next_steps, Clean p) :
    parseMeetingText (formatMeetingAsText m) = m := by
  obtain ⟨sum, ps, topics, steps⟩ := m
  have hsum_nl : ∀ c ∈ sum, c ≠ '\n' := by
    rcases hsum with h | h
    · intro c hc
      rw [show sum = [] from h] at hc
      simp at hc
    · exact h.1.2.1
  simp only [parseMeetingText]
  rw [splitNL_format ⟨sum, ps, topics, steps⟩ hsum_nl hps htop hsteps]
  rw [List.foldl_append, List.foldl_append, List.foldl_append,
    List.foldl_append]
  rw [foldl_summary_block initState sum hsum rfl]
  rw [foldl_participants_block _ ps hps]
  dsimp only [initState, List.nil_append]
  obtain ⟨tp, htp⟩ := foldl_notes_block
    ⟨if ps = [] then (if sum = [] then "" else "summary") else "participants",
      [], sum, ps, [], []⟩ topics htop hnodup rfl
  rw [htp]
  rw [foldl_steps_block _ steps hsteps]
  simp only [List.foldl_cons, List.foldl_nil]
  rw [parseLine_nil]
  simp

/-- Claim C8 as stated is false on the code: the meeting whose summary is
the single line `PARTICIPANTS:` — which begins with neither `-` nor `##`,
and whose (empty) participant, note and next-step collections vacuously
satisfy the claim's conditions — does not round-trip: parsing the formatted
text switches into the participants section and returns an empty summary. -/
theorem claim_C8_counterexample :
    (∀ c ∈ ("PARTICIPANTS:".toList : JStr), c ≠ '\n') ∧
    startsDash "PARTICIPANTS:".toList = false ∧
    startsHH "PARTICIPANTS:".toList = false ∧
    parseMeetingText (formatMeetingAsText
      ⟨"PARTICIPANTS:".toList, [], [], []⟩) ≠
      ⟨"PARTICIPANTS:".toList, [], [], []⟩ := by
  refine ⟨by decide, by decide, by decide, by decide⟩

/-- Witness for the amended C8 on a concrete fully-populated meeting. -/
theorem claim_C8_roundtrip_amended_witness :
    parseMeetingText (formatMeetingAsText
      ⟨"Quarterly sync".toList, ["Alice".toList, "Bob".toList],
        [("Budget".toList, ["Approve Q3".toList])], ["Send recap".toList]⟩) =
      ⟨"Quarterly sync".toList, ["Alice".toList, "Bob".toList],
        [("Budget".toList, ["Approve Q3".toList])], ["Send recap".toList]⟩ :=
  claim_C8_roundtrip_amended _ (Or.inr (by decide)) (by decide) (by decide)
    (by decide) (by decide)

end Hira.Meeting
